import Mathlib

/-!
Verification development for the HDR PNG converter/analyzer
(`hdr_convert.py`, `png_hdr_analyzer.py`).

Bytes are modelled as natural numbers (each conceptually `< 256`), byte
streams as `List Nat`.  The zlib primitives (`compress`/`decompress`) and
the CRC-32 primitive are external collaborators of the core; they are
taken as function parameters, with the inflate/deflate round trip as an
explicit hypothesis where a theorem needs it.  Floating-point arithmetic
of the numeric pipeline is idealised over the reals.
-/

namespace HdrPng

/-- The fixed 8-byte PNG signature `\x89PNG\r\n\x1a\n`. -/
def pngSignature : List Nat := [137, 80, 78, 71, 13, 10, 26, 10]

/-- Big-endian serialisation of a 32-bit unsigned integer
(`struct.pack('>I', n)`). -/
def be32 (n : Nat) : List Nat :=
  [n / 16777216 % 256, n / 65536 % 256, n / 256 % 256, n % 256]

/-- Big-endian serialisation of a 16-bit unsigned integer
(`struct.pack('>H', n)`). -/
def be16 (n : Nat) : List Nat :=
  [n / 256 % 256, n % 256]

/-- Big-endian interpretation of a byte sequence
(`struct.unpack('>I', bs)` on a 4-byte buffer). -/
def beToNat (bs : List Nat) : Nat :=
  bs.foldl (fun a b => a * 256 + b) 0

theorem be32_length (n : Nat) : (be32 n).length = 4 := rfl

theorem be16_length (n : Nat) : (be16 n).length = 2 := rfl

theorem beToNat_be32 (n : Nat) (h : n < 4294967296) : beToNat (be32 n) = n := by
  simp only [be32, beToNat, List.foldl]
  omega

theorem beToNat_be16 (n : Nat) (h : n < 65536) : beToNat (be16 n) = n := by
  simp only [be16, beToNat, List.foldl]
  omega

/-- One parsed PNG chunk, as built by `read_png_chunks`:
`{'type': …, 'length': …, 'data': …, 'crc': …}`. -/
structure ChunkRecord where
  ctype : List Nat
  clen : Nat
  cdata : List Nat
  crc : Nat
  deriving Repr, DecidableEq

/-- The `IHDR` chunk type tag as ASCII bytes. -/
def ihdrType : List Nat := [73, 72, 68, 82]
/-- The `IDAT` chunk type tag as ASCII bytes. -/
def idatType : List Nat := [73, 68, 65, 84]
/-- The `IEND` chunk type tag as ASCII bytes. -/
def iendType : List Nat := [73, 69, 78, 68]
/-- The `iCCP` chunk type tag as ASCII bytes. -/
def iccpType : List Nat := [105, 67, 67, 80]
/-- The `gAMA` chunk type tag as ASCII bytes. -/
def gamaType : List Nat := [103, 65, 77, 65]
/-- The `cHRM` chunk type tag as ASCII bytes. -/
def chrmType : List Nat := [99, 72, 82, 77]
/-- The `sRGB` chunk type tag as ASCII bytes. -/
def srgbType : List Nat := [115, 82, 71, 66]
/-- The `cICP` chunk type tag as ASCII bytes. -/
def cicpType : List Nat := [99, 73, 67, 80]
/-- The `mDCv` chunk type tag as ASCII bytes. -/
def mdcvType : List Nat := [109, 68, 67, 118]
/-- The `cLLi` chunk type tag as ASCII bytes. -/
def clliType : List Nat := [99, 76, 76, 105]

/-- Loop body of `read_png_chunks` (`png_hdr_analyzer.py` lines 22-46),
operating on the bytes that remain after the signature.  A short read of
the length field stops the loop (`break`); a short CRC buffer makes
`struct.unpack` raise (modelled as `.error`); decoding a chunk type byte
`≥ 128` makes `.decode('ascii')` raise; an `IEND` record is appended and
then the loop stops. -/
def readLoop (rem : List Nat) : Except String (List ChunkRecord) :=
  if h : rem.length < 4 then
    .ok []
  else
    let len := beToNat (rem.take 4)
    let r1 := rem.drop 4
    let tb := r1.take 4
    if tb.any (fun b => 128 ≤ b) then
      .error "UnicodeDecodeError"
    else
      let r2 := r1.drop 4
      let dat := r2.take len
      let r3 := r2.drop len
      let crcB := r3.take 4
      if crcB.length < 4 then
        .error "struct.error"
      else
        let c : ChunkRecord := ⟨tb, len, dat, beToNat crcB⟩
        if tb = iendType then
          .ok [c]
        else
          match readLoop (r3.drop 4) with
          | .ok cs => .ok (c :: cs)
          | .error e => .error e
termination_by rem.length
decreasing_by
  simp only [List.length_drop]
  omega

/-- The Chunk Stream Reader `read_png_chunks` (`png_hdr_analyzer.py`
lines 13-48): verify the 8-byte signature (raising `ValueError`
otherwise), then iterate `readLoop`. -/
def readPngChunks (bytes : List Nat) : Except String (List ChunkRecord) :=
  if bytes.take 8 = pngSignature then
    readLoop (bytes.drop 8)
  else
    .error "Not a valid PNG file"

/-- An extracted ICC profile, as returned by `extract_icc_profile`:
`{'name': …, 'data': …}` (the name bytes are Latin-1, which decodes any
byte, so they are kept as raw bytes here). -/
structure IccProfile where
  pname : List Nat
  pdata : List Nat
  deriving Repr, DecidableEq

/-- Loop body of `extract_icc_profile` (`hdr_convert.py` lines 37-54).
Differences from `readLoop`: the CRC bytes are read but never unpacked
(so a short CRC read is not an error), an `iCCP` chunk returns the
NUL-terminated name and the inflated remainder (after skipping the
compression-method byte), `data.index(b'\x00')` raises `ValueError`
when the payload has no NUL byte, and `IEND` stops with no profile. -/
def extractLoop (inflate : List Nat → List Nat) (rem : List Nat) :
    Except String (Option IccProfile) :=
  if h : rem.length < 4 then
    .ok none
  else
    let len := beToNat (rem.take 4)
    let r1 := rem.drop 4
    let tb := r1.take 4
    if tb.any (fun b => 128 ≤ b) then
      .error "UnicodeDecodeError"
    else
      let r2 := r1.drop 4
      let dat := r2.take len
      let r3 := (r2.drop len).drop 4
      if tb = iccpType then
        match dat.findIdx? (fun b => b = 0) with
        | none => .error "ValueError"
        | some i => .ok (some ⟨dat.take i, inflate (dat.drop (i + 2))⟩)
      else if tb = iendType then
        .ok none
      else
        extractLoop inflate r3
termination_by rem.length
decreasing_by
  simp only [List.length_drop]
  omega

/-- The Color Profile Extractor `extract_icc_profile` (`hdr_convert.py`
lines 30-55): a bad signature returns `None` (not an error), then the
chunk walk of `extractLoop`. -/
def extractIccProfile (inflate : List Nat → List Nat) (bytes : List Nat) :
    Except String (Option IccProfile) :=
  if bytes.take 8 = pngSignature then
    extractLoop inflate (bytes.drop 8)
  else
    .ok none

/-- `make_chunk` (`hdr_convert.py` lines 112-118): length, type, data,
then CRC-32 over type ++ data masked to 32 bits. -/
def mkChunk (crc32 : List Nat → Nat) (ctype cdata : List Nat) : List Nat :=
  be32 cdata.length ++ ctype ++ cdata ++ be32 (crc32 (ctype ++ cdata) % 4294967296)

/-- Serialisation of one pixel in a scanline:
`struct.pack('>HHH', r, g, b)`. -/
def pixelBytes (p : Nat × Nat × Nat) : List Nat :=
  be16 p.1 ++ be16 p.2.1 ++ be16 p.2.2

/-- One raw scanline: the filter-type byte 0 followed by the pixel
samples, big-endian 16-bit per channel (`hdr_convert.py` lines 139-143). -/
def scanline (row : List (Nat × Nat × Nat)) : List Nat :=
  0 :: (row.map pixelBytes).flatten

/-- The raw (pre-compression) image data of `save_16bit_png_with_icc`:
all scanlines concatenated. -/
def rawImageData (img : List (List (Nat × Nat × Nat))) : List Nat :=
  (img.map scanline).flatten

/-- Splitting a byte sequence into consecutive pieces of at most `n`
bytes (`for i in range(0, len(compressed_data), chunk_size)`). -/
def chunksOf (n : Nat) (l : List Nat) : List (List Nat) :=
  if l = [] ∨ n = 0 then []
  else l.take n :: chunksOf n (l.drop n)
termination_by l.length
decreasing_by
  simp only [List.length_drop]
  rename_i h
  cases l with
  | nil => simp at h
  | cons a t => simp at h ⊢; omega

/-- The Chunk Stream Writer `save_16bit_png_with_icc` (`hdr_convert.py`
lines 121-163): signature, `IHDR` (bit depth 16, colour type 2), an
optional `iCCP` chunk (name `"PQ HDR\x00"`, compression method 0,
deflate-compressed profile), the deflate-compressed filtered scanlines
split into `IDAT` chunks of at most 8192 bytes, and `IEND`. -/
def save16BitPng (crc32 : List Nat → Nat) (compress : List Nat → List Nat)
    (img : List (List (Nat × Nat × Nat))) (icc : Option (List Nat)) : List Nat :=
  let height := img.length
  let width := (img.headD []).length
  let ihdrData := be32 width ++ be32 height ++ [16, 2, 0, 0, 0]
  let iccpChunk : List Nat :=
    match icc with
    | none => []
    | some p => mkChunk crc32 iccpType ([80, 81, 32, 72, 68, 82, 0] ++ [0] ++ compress p)
  let compressed := compress (rawImageData img)
  let idatChunks := ((chunksOf 8192 compressed).map (mkChunk crc32 idatType)).flatten
  pngSignature ++ mkChunk crc32 ihdrType ihdrData ++ iccpChunk ++ idatChunks ++
    mkChunk crc32 iendType []

/-- A decoded image header, as produced by `parse_ihdr`
(`png_hdr_analyzer.py` lines 51-77; the numeric fields — the derived
colour-type name is presentation only). -/
structure ImageHeader where
  width : Nat
  height : Nat
  bitDepth : Nat
  colorType : Nat
  compression : Nat
  filterMethod : Nat
  interlace : Nat
  deriving Repr, DecidableEq

/-- `parse_ihdr` (`png_hdr_analyzer.py` lines 51-77): `struct.unpack` and
the byte indexing raise when fewer than 13 bytes are present (modelled as
`none`). -/
def parseIhdr (d : List Nat) : Option ImageHeader :=
  if 13 ≤ d.length then
    some ⟨beToNat (d.take 4), beToNat ((d.drop 4).take 4),
          d.getD 8 0, d.getD 9 0, d.getD 10 0, d.getD 11 0, d.getD 12 0⟩
  else
    none

/-- A decoded cICP chunk (`parse_cicp`, `png_hdr_analyzer.py` lines
117-183; the raw numeric fields — the lookup-table display names are
presentation only). -/
structure CicpRecord where
  colorPrimaries : Nat
  transferCharacteristics : Nat
  matrixCoefficients : Nat
  videoFullRange : Nat
  deriving Repr, DecidableEq

/-- `parse_cicp`: indexes `data[0] … data[3]`, raising when fewer than
4 bytes are present. -/
def parseCicp (d : List Nat) : Option CicpRecord :=
  if 4 ≤ d.length then
    some ⟨d.getD 0 0, d.getD 1 0, d.getD 2 0, d.getD 3 0⟩
  else
    none

/-- Parse `w` pixels (3 big-endian 16-bit channels each) from a raw
scanline body. -/
def parsePixels (w : Nat) (bs : List Nat) : List (Nat × Nat × Nat) :=
  match w with
  | 0 => []
  | w' + 1 =>
    (beToNat (bs.take 2), beToNat ((bs.drop 2).take 2), beToNat ((bs.drop 4).take 2)) ::
      parsePixels w' (bs.drop 6)

/-- Strip the per-scanline filter byte and parse `h` scanlines of `w`
pixels each from the inflated IDAT payload. -/
def unfilterScanlines (w h : Nat) (bs : List Nat) : List (List (Nat × Nat × Nat)) :=
  match h with
  | 0 => []
  | h' + 1 => parsePixels w (bs.drop 1) :: unfilterScanlines w h' (bs.drop (1 + 6 * w))

/-- Container decoding: read the chunk stream, decode the first `IHDR`
chunk, concatenate and inflate the `IDAT` payloads, and strip the
per-scanline filter bytes. -/
def decodePng (inflate : List Nat → List Nat) (bytes : List Nat) :
    Option (ImageHeader × List (List (Nat × Nat × Nat))) :=
  match readPngChunks bytes with
  | .error _ => none
  | .ok cs =>
    match cs.find? (fun c => c.ctype = ihdrType) with
    | none => none
    | some c =>
      match parseIhdr c.cdata with
      | none => none
      | some hdr =>
        let raw := inflate ((cs.filter (fun c => c.ctype = idatType)).map (·.cdata)).flatten
        some (hdr, unfilterScanlines hdr.width hdr.height raw)

/-- The analyzer's accumulated HDR summary (`hdr_info` in
`analyze_png_hdr`, `png_hdr_analyzer.py` lines 307-443).  Only the
fields that feed the summary are modelled; the parsed diagnostic
dictionaries for `mDCv`/`cLLi` only set `hasHdr` here. -/
structure HdrInfo where
  hasHdr : Bool := false
  hdrType : Option String := none
  highBitDepth : Bool := false
  cicp : Option CicpRecord := none
  deriving Repr, DecidableEq

/-- One iteration of the chunk loop of `analyze_png_hdr`
(`png_hdr_analyzer.py` lines 313-422).  Each branch re-creates the
parser's exact-length requirements of the corresponding `parse_*`
function (`struct.unpack` raises unless the buffer length matches, byte
indexing raises when out of range, `data.index(b'\x00')` raises when no
NUL is present); a raised exception aborts the whole analysis. -/
def stepChunk (s : HdrInfo) (c : ChunkRecord) : Except String HdrInfo :=
  if c.ctype = ihdrType then
    match parseIhdr c.cdata with
    | none => .error "struct.error"
    | some h =>
      .ok (if h.bitDepth = 16 then { s with hasHdr := true, highBitDepth := true } else s)
  else if c.ctype = gamaType then
    if c.cdata.length = 4 then .ok s else .error "struct.error"
  else if c.ctype = chrmType then
    if c.cdata.length = 32 then .ok s else .error "struct.error"
  else if c.ctype = srgbType then
    if 1 ≤ c.cdata.length then .ok s else .error "IndexError"
  else if c.ctype = cicpType then
    match parseCicp c.cdata with
    | none => .error "IndexError"
    | some r =>
      .ok { s with hasHdr := true, cicp := some r,
                   hdrType := if r.transferCharacteristics = 16 then some "HDR10 (PQ)"
                              else if r.transferCharacteristics = 18 then some "HLG"
                              else s.hdrType }
  else if c.ctype = iccpType then
    match c.cdata.findIdx? (fun b => b = 0) with
    | none => .error "ValueError"
    | some i => if i + 1 < c.cdata.length then .ok s else .error "IndexError"
  else if c.ctype = mdcvType then
    if c.cdata.length = 24 then .ok { s with hasHdr := true } else .error "struct.error"
  else if c.ctype = clliType then
    if c.cdata.length = 8 then .ok { s with hasHdr := true } else .error "struct.error"
  else
    .ok s

/-- The HDR-relevant fold of `analyze_png_hdr` over an already-read chunk
list (`png_hdr_analyzer.py` lines 300-443).  The initial chunk-listing
loop indexes `chunk['type'][0]`, raising on an empty type tag. -/
def analyzePngChunks (cs : List ChunkRecord) : Except String HdrInfo :=
  if cs.any (fun c => c.ctype = []) then
    .error "IndexError"
  else
    cs.foldlM stepChunk {}

/-! Numeric pipeline (`hdr_convert.py`), idealised over the reals. -/

/-- `srgb_to_linear` (`hdr_convert.py` lines 58-60). -/
noncomputable def srgbToLinear (x : ℝ) : ℝ :=
  if x ≤ 0.04045 then x / 12.92 else ((x + 0.055) / 1.055) ^ (2.4 : ℝ)

/-- The raw SMPTE ST 2084 forward PQ formula of `linear_to_pq`
(`hdr_convert.py` lines 63-80), without the input clip. -/
noncomputable def pqFormula (x : ℝ) : ℝ :=
  let m1 : ℝ := 2610.0 / 16384.0
  let m2 : ℝ := 2523.0 / 4096.0 * 128.0
  let c1 : ℝ := 3424.0 / 4096.0
  let c2 : ℝ := 2413.0 / 4096.0 * 32.0
  let c3 : ℝ := 2392.0 / 4096.0 * 32.0
  ((c1 + c2 * x ^ m1) / (1 + c3 * x ^ m1)) ^ m2

/-- `linear_to_pq` (`hdr_convert.py` lines 63-80): `np.clip(x, 0, 1)`
then the PQ formula. -/
noncomputable def linearToPq (x : ℝ) : ℝ :=
  pqFormula (min 1 (max 0 x))

/-- The radial mask value of `create_radial_mask` (`hdr_convert.py`
lines 83-109) at a pixel at Euclidean distance `dist` from the centre:
`clip((dist - radius)/falloff, 0, 1)` when `falloff > 0`, else the hard
step `dist > radius`. -/
noncomputable def radialMaskValue (dist radius falloff : ℝ) : ℝ :=
  if 0 < falloff then min 1 (max 0 ((dist - radius) / falloff))
  else if radius < dist then 1 else 0

/-- The per-pixel multiplier applied for the radial boost
(`hdr_convert.py` line 255): `1 + mask * (radial_gain - 1)`. -/
noncomputable def radialMultiplier (dist radius falloff g : ℝ) : ℝ :=
  1 + radialMaskValue dist radius falloff * (g - 1)

/-- The composed per-sample pipeline of `convert_to_hdr` up to (and
excluding) quantization (`hdr_convert.py` lines 240-273): inverse sRGB
EOTF, uniform gain, radial-boost multiplier, mask-boost multiplier, the
`nits / 10000` rescale, the `np.clip(…, 0, 1)`, then `linear_to_pq`. -/
noncomputable def pipelineSample (gain nits radialMult maskMult x : ℝ) : ℝ :=
  linearToPq (min 1 (max 0 (srgbToLinear x * gain * radialMult * maskMult * (nits / 10000))))

/-- The quantization step `(pq * 65535).astype(np.uint16)`
(`hdr_convert.py` line 276): a C-style cast, i.e. truncation toward
zero (for the non-negative PQ values this is the floor). -/
noncomputable def quantizeSample (q : ℝ) : Nat :=
  (Int.floor (q * 65535)).toNat

/-- Configuration of `convert_to_hdr` (`hdr_convert.py` lines 188-199).
The optional radial boost carries (radius, outer gain, falloff); the
optional mask carries the pre-resized normalized grey field (the resize
of `load_mask_image` guarantees matching dimensions) and the mask gain. -/
structure HdrConfig where
  gain : ℝ
  nits : ℝ
  radialBoost : Option (ℝ × ℝ × ℝ) := none
  mask : Option (List (List ℝ) × ℝ) := none

/-- Euclidean distance of pixel `(xi, yi)` from the default centre
`(width // 2, height // 2)` (`create_radial_mask`, lines 97-101). -/
noncomputable def pixelDistance (width height xi yi : Nat) : ℝ :=
  Real.sqrt (((xi : ℝ) - (width / 2 : Nat)) ^ 2 + ((yi : ℝ) - (height / 2 : Nat)) ^ 2)

/-- The numeric core of `convert_to_hdr` (`hdr_convert.py` lines
240-276), from the normalized float image to the 16-bit output grid.
The source performs no parameter validation whatsoever — there is no
`ConfigurationError` and no check on `gain`, `nits`, radius or falloff —
so the only result is `.ok` of the transformed grid; the `Except` wrapper
records that the function offers an error channel it never uses. -/
noncomputable def convertToHdr (cfg : HdrConfig) (img : List (List (ℝ × ℝ × ℝ))) :
    Except String (List (List (Nat × Nat × Nat))) :=
  let height := img.length
  let width := (img.headD []).length
  let rMult : Nat → Nat → ℝ := fun xi yi =>
    match cfg.radialBoost with
    | none => 1
    | some (radius, rgain, falloff) =>
      radialMultiplier (pixelDistance width height xi yi) radius falloff rgain
  let mMult : Nat → Nat → ℝ := fun xi yi =>
    match cfg.mask with
    | none => 1
    | some (m, mgain) => 1 + (m.getD yi []).getD xi 0 * (mgain - 1)
  .ok <| img.enum.map fun rowi =>
    rowi.2.enum.map fun pxi =>
      (quantizeSample (pipelineSample cfg.gain cfg.nits (rMult pxi.1 rowi.1) (mMult pxi.1 rowi.1) pxi.2.1),
       quantizeSample (pipelineSample cfg.gain cfg.nits (rMult pxi.1 rowi.1) (mMult pxi.1 rowi.1) pxi.2.2.1),
       quantizeSample (pipelineSample cfg.gain cfg.nits (rMult pxi.1 rowi.1) (mMult pxi.1 rowi.1) pxi.2.2.2))

/-! Helper lemmas for the numeric pipeline. -/

theorem pqFormula_eq (x : ℝ) :
    pqFormula x = ((107 / 128 + 2413 / 128 * x ^ ((1305 : ℝ) / 8192)) /
      (1 + 2392 / 128 * x ^ ((1305 : ℝ) / 8192))) ^ ((2523 : ℝ) / 32) := by
  unfold pqFormula
  norm_num

theorem srgbToLinear_nonneg {x : ℝ} (h0 : 0 ≤ x) : 0 ≤ srgbToLinear x := by
  unfold srgbToLinear
  split
  · positivity
  · exact Real.rpow_nonneg (by positivity) _

theorem srgbToLinear_le_one {x : ℝ} (h0 : 0 ≤ x) (h1 : x ≤ 1) : srgbToLinear x ≤ 1 := by
  unfold srgbToLinear
  split
  · rename_i hb
    rw [div_le_one (by norm_num : (0 : ℝ) < 12.92)]
    nlinarith
  · refine Real.rpow_le_one (by positivity) ?_ (by norm_num)
    rw [div_le_one (by norm_num : (0 : ℝ) < 1.055)]
    nlinarith

theorem pqFormula_mono {x1 x2 : ℝ} (h0 : 0 ≤ x1) (h12 : x1 ≤ x2) :
    pqFormula x1 ≤ pqFormula x2 := by
  rw [pqFormula_eq, pqFormula_eq]
  have ht : x1 ^ ((1305 : ℝ) / 8192) ≤ x2 ^ ((1305 : ℝ) / 8192) :=
    Real.rpow_le_rpow h0 h12 (by norm_num)
  have ht0 : (0 : ℝ) ≤ x1 ^ ((1305 : ℝ) / 8192) := Real.rpow_nonneg h0 _
  set t1 := x1 ^ ((1305 : ℝ) / 8192) with hdef1
  set t2 := x2 ^ ((1305 : ℝ) / 8192) with hdef2
  have ht20 : (0 : ℝ) ≤ t2 := le_trans ht0 ht
  have hd1 : (0 : ℝ) < 1 + 2392 / 128 * t1 := by nlinarith
  have hd2 : (0 : ℝ) < 1 + 2392 / 128 * t2 := by nlinarith
  have hfrac : (107 / 128 + 2413 / 128 * t1) / (1 + 2392 / 128 * t1) ≤
      (107 / 128 + 2413 / 128 * t2) / (1 + 2392 / 128 * t2) := by
    rw [div_le_div_iff₀ hd1 hd2]
    nlinarith
  exact Real.rpow_le_rpow (by positivity) hfrac (by norm_num)

theorem pqFormula_one : pqFormula 1 = 1 := by
  rw [pqFormula_eq, Real.one_rpow]
  norm_num

theorem pqFormula_zero : pqFormula 0 = (107 / 128 : ℝ) ^ ((2523 : ℝ) / 32) := by
  rw [pqFormula_eq, Real.zero_rpow (by norm_num)]
  norm_num

theorem pqFormula_zero_lb : (1 / 1000000000 : ℝ) < pqFormula 0 := by
  rw [pqFormula_zero]
  have h1 : ((107 / 128 : ℝ)) ^ ((79 : ℕ) : ℝ) ≤ (107 / 128 : ℝ) ^ ((2523 : ℝ) / 32) :=
    Real.rpow_le_rpow_of_exponent_ge (by norm_num) (by norm_num) (by norm_num)
  rw [Real.rpow_natCast] at h1
  calc (1 / 1000000000 : ℝ) < (107 / 128 : ℝ) ^ (79 : ℕ) := by norm_num
    _ ≤ _ := h1

theorem pqFormula_zero_ub : pqFormula 0 ≤ 1 / 1000000 := by
  rw [pqFormula_zero]
  have h1 : (107 / 128 : ℝ) ^ ((2523 : ℝ) / 32) ≤ ((107 / 128 : ℝ)) ^ ((78 : ℕ) : ℝ) :=
    Real.rpow_le_rpow_of_exponent_ge (by norm_num) (by norm_num) (by norm_num)
  rw [Real.rpow_natCast] at h1
  calc (107 / 128 : ℝ) ^ ((2523 : ℝ) / 32) ≤ (107 / 128 : ℝ) ^ (78 : ℕ) := h1
    _ ≤ 1 / 1000000 := by norm_num

/-! Claim theorems for the numeric pipeline. -/

/-- C2 (counterexample): the conversion pipeline does not fail with a
`ConfigurationError` on `gain ≤ 0`: invoked with `gain = -1` (which
satisfies `gain ≤ 0`), `nits = 10000`, no radial boost and no mask, on a
1×1 black image, `convert_to_hdr` succeeds and produces output — no
validation of the configuration is performed. -/
theorem convert_accepts_nonpositive_gain :
    ((-1 : ℝ) ≤ 0) ∧
      (convertToHdr ⟨-1, 10000, none, none⟩ [[((0 : ℝ), (0 : ℝ), (0 : ℝ))]]).isOk = true :=
  ⟨by norm_num, rfl⟩

/-- C2 (amended): `convert_to_hdr` performs no parameter validation at
all: for every configuration (any `gain`, `nits`, radial boost or mask
parameters) and every input image the conversion succeeds; there is no
`ConfigurationError` path, and out-of-range luminance values are instead
silently clamped to `[0, 1]` by the `np.clip` step before the PQ
transform. -/
theorem convert_never_fails (cfg : HdrConfig) (img : List (List (ℝ × ℝ × ℝ))) :
    (convertToHdr cfg img).isOk = true := rfl

/-- C3 (counterexample): the final quantization step is not
nearest-integer rounding: at the PQ sample `8/327675 ∈ [0,1]` (where
`pq * 65535 = 1.6`) the code's `astype(np.uint16)` produces 1 while
`round(pq * 65535)` is 2. -/
theorem quantize_is_not_round :
    ((0 : ℝ) ≤ 8 / 327675 ∧ (8 / 327675 : ℝ) ≤ 1) ∧
      quantizeSample (8 / 327675) = 1 ∧ round ((8 / 327675 : ℝ) * 65535) = 2 := by
  refine ⟨⟨by norm_num, by norm_num⟩, ?_, ?_⟩
  · unfold quantizeSample
    have h : Int.floor ((8 / 327675 : ℝ) * 65535) = 1 := by
      rw [Int.floor_eq_iff]
      constructor <;> norm_num
    rw [h]
    rfl
  · rw [round_eq, Int.floor_eq_iff]
    constructor <;> norm_num

/-- C3 (amended): for every PQ-encoded sample `pq ∈ [0, 1]` the final
quantization step produces the truncation `⌊pq * 65535⌋` (not the
nearest integer), and the result always fits in an unsigned 16-bit
integer. -/
theorem quantize_truncates {q : ℝ} (h0 : 0 ≤ q) (h1 : q ≤ 1) :
    (quantizeSample q : ℤ) = Int.floor (q * 65535) ∧ quantizeSample q ≤ 65535 := by
  have hq0 : (0 : ℝ) ≤ q * 65535 := by positivity
  have hf0 : 0 ≤ Int.floor (q * 65535) := Int.floor_nonneg.mpr hq0
  have hub : Int.floor (q * 65535) ≤ 65535 := by
    have h := Int.floor_le (q * 65535)
    have h2 : (Int.floor (q * 65535) : ℝ) ≤ 65535 := by nlinarith
    exact_mod_cast h2
  constructor
  · unfold quantizeSample
    exact Int.toNat_of_nonneg hf0
  · unfold quantizeSample
    omega

/-- Witness for C3 (amended) at `q = 1/2`. -/
theorem quantize_truncates_witness :
    (quantizeSample (1 / 2) : ℤ) = Int.floor ((1 / 2 : ℝ) * 65535) ∧
      quantizeSample (1 / 2) ≤ 65535 :=
  quantize_truncates (by norm_num) (by norm_num)

/-- C4 (counterexample): `pq(0)` is not 0 within tolerance `1e-9`: with
the ST 2084 constants, `pq(0) = (3424/4096)^(2523/32) ≈ 7.3e-7`, which
is strictly larger than `1e-9`. -/
theorem pq_at_zero_exceeds_tolerance : (1 / 1000000000 : ℝ) < pqFormula 0 :=
  pqFormula_zero_lb

/-- C4 (amended): the forward PQ transform is non-decreasing on `[0,1]`,
`pq(1) = 1` exactly (hence within `1e-9`), and `pq(0)` is within `1e-6`
of 0 (but, per the counterexample, not within `1e-9`). -/
theorem pq_monotone_and_endpoints :
    (∀ x1 x2 : ℝ, 0 ≤ x1 → x1 ≤ x2 → x2 ≤ 1 → pqFormula x1 ≤ pqFormula x2) ∧
      pqFormula 1 = 1 ∧ pqFormula 0 ≤ 1 / 1000000 := by
  refine ⟨fun x1 x2 h0 h12 _ => pqFormula_mono h0 h12, pqFormula_one, pqFormula_zero_ub⟩

/-- Witness for C4 (amended) at `x1 = 1/4`, `x2 = 3/4`. -/
theorem pq_monotone_and_endpoints_witness :
    pqFormula (1 / 4) ≤ pqFormula (3 / 4) :=
  pq_monotone_and_endpoints.1 (1 / 4) (3 / 4) (by norm_num) (by norm_num) (by norm_num)

/-- C5 (confirmed): with `gain = 1`, no radial boost (multiplier 1), no
mask (multiplier 1) and `nits = 10000`, the composed per-sample pipeline
value before quantization equals `pq(srgbToLinear x)` for every sample
`x ∈ [0, 1]`, with `pq` the raw ST 2084 formula. -/
theorem gain_neutral_pipeline {x : ℝ} (h0 : 0 ≤ x) (h1 : x ≤ 1) :
    pipelineSample 1 10000 1 1 x = pqFormula (srgbToLinear x) := by
  have hs0 : 0 ≤ srgbToLinear x := srgbToLinear_nonneg h0
  have hs1 : srgbToLinear x ≤ 1 := srgbToLinear_le_one h0 h1
  unfold pipelineSample linearToPq
  have harg : srgbToLinear x * 1 * 1 * 1 * (10000 / 10000) = srgbToLinear x := by ring
  rw [harg, max_eq_right hs0, min_eq_right hs1, max_eq_right hs0, min_eq_right hs1]

/-- Witness for C5 at `x = 1`. -/
theorem gain_neutral_pipeline_witness :
    pipelineSample 1 10000 1 1 1 = pqFormula (srgbToLinear 1) :=
  gain_neutral_pipeline (by norm_num) (by norm_num)

/-- C6 (counterexample): with `radius = 100 ≥ 0`, `falloff = 0` and
`outerGain = 2`, a pixel at distance `100 = radius + falloff` receives
multiplier 1 (the hard step's centre-side value), not the claimed
`outerGain = 2` — the claim's "distance ≥ radius + falloff ⇒ multiplier
= outerGain" conjunct fails at the hard-edge boundary. -/
theorem radial_boundary_is_center_side :
    ((100 : ℝ) = 100 + 0) ∧ radialMultiplier 100 100 0 2 = 1 ∧ (1 : ℝ) ≠ 2 := by
  refine ⟨by norm_num, ?_, by norm_num⟩
  unfold radialMultiplier radialMaskValue
  norm_num

/-- C6 (amended): for `radius ≥ 0` and `falloff ≥ 0`: distance 0 gives
multiplier exactly 1; when `falloff > 0`, any distance `≥ radius +
falloff` gives multiplier exactly `outerGain`; when `falloff = 0` the
mask is the hard step `distance > radius`, so distances strictly beyond
the radius give `outerGain` while distance exactly `radius` gives 1
(centre-side). -/
theorem radial_mask_bounds (radius falloff g d : ℝ) (hr : 0 ≤ radius) (hf : 0 ≤ falloff) :
    radialMultiplier 0 radius falloff g = 1 ∧
      (0 < falloff → radius + falloff ≤ d → radialMultiplier d radius falloff g = g) ∧
      (falloff = 0 → radius < d → radialMultiplier d radius falloff g = g) ∧
      (falloff = 0 → radialMultiplier radius radius falloff g = 1) := by
  unfold radialMultiplier radialMaskValue
  refine ⟨?_, ?_, ?_, ?_⟩
  · split
    · rename_i hpos
      have hle : (0 - radius) / falloff ≤ 0 :=
        div_nonpos_of_nonpos_of_nonneg (by linarith) (le_of_lt hpos)
      rw [max_eq_left hle]
      norm_num
    · rw [if_neg (by linarith)]
      ring
  · intro hpos hd
    rw [if_pos hpos]
    have h1 : 1 ≤ (d - radius) / falloff := (one_le_div hpos).mpr (by linarith)
    rw [max_eq_right (by linarith), min_eq_left h1]
    ring
  · intro hz hd
    rw [if_neg (by rw [hz]; exact lt_irrefl 0), if_pos hd]
    ring
  · intro hz
    rw [if_neg (by rw [hz]; exact lt_irrefl 0), if_neg (lt_irrefl radius)]
    ring

/-- Witness for C6 (amended) at `radius = 1`, `falloff = 2`, `g = 5`,
`d = 3`. -/
theorem radial_mask_bounds_witness :
    radialMultiplier 0 1 2 5 = 1 ∧
      ((0 : ℝ) < 2 → (1 : ℝ) + 2 ≤ 3 → radialMultiplier 3 1 2 5 = 5) ∧
      ((2 : ℝ) = 0 → (1 : ℝ) < 3 → radialMultiplier 3 1 2 5 = 5) ∧
      ((2 : ℝ) = 0 → radialMultiplier 1 1 2 5 = 1) :=
  radial_mask_bounds 1 2 5 3 (by norm_num) (by norm_num)

/-! Analyzer lemmas and claim theorems C9 / C10. -/

theorem parseIhdr_bitDepth {d : List Nat} {hd : ImageHeader} (h : parseIhdr d = some hd) :
    hd.bitDepth = d.getD 8 0 := by
  unfold parseIhdr at h
  split at h
  · cases h
    rfl
  · cases h

theorem stepChunk_hasHdr_mono {s s' : HdrInfo} {c : ChunkRecord}
    (hstep : stepChunk s c = .ok s') (h : s.hasHdr = true) : s'.hasHdr = true := by
  unfold stepChunk at hstep
  repeat' split at hstep
  all_goals
    first
    | exact Except.noConfusion hstep
    | (injection hstep with hstep; subst hstep; first | rfl | exact h)

theorem stepChunk_preserve {s s' : HdrInfo} {c : ChunkRecord}
    (hstep : stepChunk s c = .ok s')
    (hihdr : c.ctype = ihdrType → c.cdata.getD 8 0 ≠ 16)
    (hno : c.ctype ≠ cicpType ∧ c.ctype ≠ mdcvType ∧ c.ctype ≠ clliType) :
    s'.hasHdr = s.hasHdr := by
  unfold stepChunk at hstep
  repeat' split at hstep
  all_goals
    first
    | exact Except.noConfusion hstep
    | (injection hstep with hstep; subst hstep)
  all_goals (try rfl)
  all_goals exfalso
  all_goals
    try (rename_i hty hopt hdr heq hbd
         exact hihdr hty ((parseIhdr_bitDepth heq) ▸ hbd))
  all_goals simp_all

theorem stepChunk_ihdr16 {s s' : HdrInfo} {c : ChunkRecord}
    (h1 : c.ctype = ihdrType) (h2 : c.cdata.getD 8 0 = 16)
    (hstep : stepChunk s c = .ok s') : s'.hasHdr = true := by
  unfold stepChunk at hstep
  rw [if_pos h1] at hstep
  split at hstep
  · cases hstep
  · rename_i hd hp
    have hbd := parseIhdr_bitDepth hp
    cases hstep
    rw [if_pos (by rw [hbd, h2])]

theorem foldChunks_hasHdr_mono :
    ∀ (cs : List ChunkRecord) (s info : HdrInfo), cs.foldlM stepChunk s = .ok info →
      s.hasHdr = true → info.hasHdr = true := by
  intro cs
  induction cs with
  | nil =>
    intro s info hfold h
    simp only [List.foldlM_nil] at hfold
    cases hfold
    exact h
  | cons c cs ih =>
    intro s info hfold h
    rw [List.foldlM_cons] at hfold
    cases hstep : stepChunk s c with
    | error e => rw [hstep] at hfold; cases hfold
    | ok s1 =>
      rw [hstep] at hfold
      exact ih s1 info hfold (stepChunk_hasHdr_mono hstep h)

theorem foldChunks_preserve :
    ∀ (cs : List ChunkRecord) (s info : HdrInfo), cs.foldlM stepChunk s = .ok info →
      (∀ c ∈ cs, c.ctype = ihdrType → c.cdata.getD 8 0 ≠ 16) →
      (∀ c ∈ cs, c.ctype ≠ cicpType ∧ c.ctype ≠ mdcvType ∧ c.ctype ≠ clliType) →
      info.hasHdr = s.hasHdr := by
  intro cs
  induction cs with
  | nil =>
    intro s info hfold _ _
    simp only [List.foldlM_nil] at hfold
    cases hfold
    rfl
  | cons c cs ih =>
    intro s info hfold hihdr hno
    rw [List.foldlM_cons] at hfold
    cases hstep : stepChunk s c with
    | error e => rw [hstep] at hfold; cases hfold
    | ok s1 =>
      rw [hstep] at hfold
      have h1 := ih s1 info hfold (fun x hx => hihdr x (List.mem_cons_of_mem c hx))
        (fun x hx => hno x (List.mem_cons_of_mem c hx))
      rw [h1, stepChunk_preserve hstep (hihdr c (List.mem_cons_self c cs))
        (hno c (List.mem_cons_self c cs))]

theorem foldChunks_sets :
    ∀ (cs : List ChunkRecord) (s info : HdrInfo), cs.foldlM stepChunk s = .ok info →
      (∃ c ∈ cs, c.ctype = ihdrType ∧ c.cdata.getD 8 0 = 16) → info.hasHdr = true := by
  intro cs
  induction cs with
  | nil =>
    intro s info _ hex
    rcases hex with ⟨c, hc, _⟩
    cases hc
  | cons c cs ih =>
    intro s info hfold hex
    rw [List.foldlM_cons] at hfold
    cases hstep : stepChunk s c with
    | error e => rw [hstep] at hfold; cases hfold
    | ok s1 =>
      rw [hstep] at hfold
      rcases hex with ⟨x, hx, hxi, hxd⟩
      rcases List.mem_cons.mp hx with hhd | htl
      · subst hhd
        exact foldChunks_hasHdr_mono cs s1 info hfold (stepChunk_ihdr16 hxi hxd hstep)
      · exact ih s1 info hfold ⟨x, htl, hxi, hxd⟩

/-- C9 (confirmed): processing a cICP chunk with at least the 4 payload
bytes the parser indexes, the analyzer classifies
`transferCharacteristics = 16` as `"HDR10 (PQ)"`, `18` as `"HLG"`, and
leaves `hdrType` unset (`none`) for any other value, while the decoded
cICP record with the raw field values is reported in all cases. -/
theorem cicp_classification (d : List Nat) (h : 4 ≤ d.length) :
    analyzePngChunks [⟨cicpType, d.length, d, 0⟩] =
      .ok { hasHdr := true,
            hdrType := if d.getD 1 0 = 16 then some "HDR10 (PQ)"
                       else if d.getD 1 0 = 18 then some "HLG" else none,
            highBitDepth := false,
            cicp := some ⟨d.getD 0 0, d.getD 1 0, d.getD 2 0, d.getD 3 0⟩ } := by
  unfold analyzePngChunks
  rw [if_neg (by simp [cicpType])]
  simp only [List.foldlM_cons, List.foldlM_nil]
  unfold stepChunk
  rw [if_neg (by simp [cicpType, ihdrType]), if_neg (by simp [cicpType, gamaType]),
    if_neg (by simp [cicpType, chrmType]), if_neg (by simp [cicpType, srgbType]),
    if_pos rfl]
  unfold parseCicp
  rw [if_pos h]
  rfl

/-- Witness for C9 at the concrete payload `[9, 16, 0, 1]` (BT.2020
primaries, PQ transfer). -/
theorem cicp_classification_witness :
    analyzePngChunks [⟨cicpType, 4, [9, 16, 0, 1], 0⟩] =
      .ok { hasHdr := true,
            hdrType := if (16 : Nat) = 16 then some "HDR10 (PQ)"
                       else if (16 : Nat) = 18 then some "HLG" else none,
            highBitDepth := false,
            cicp := some ⟨9, 16, 0, 1⟩ } :=
  cicp_classification [9, 16, 0, 1] (by norm_num)

/-- C10 (confirmed): if the analysis succeeds and the stream contains an
IHDR chunk whose bit-depth byte is 16, the summary has `hasHdr = true`
(even with no cICP, mDCv or cLLi chunk present); if no IHDR chunk decodes
to bit depth 16 and no cICP/mDCv/cLLi chunk is present, `hasHdr` remains
`false`. -/
theorem high_bit_depth_flags_hdr :
    (∀ (cs : List ChunkRecord) (info : HdrInfo), analyzePngChunks cs = .ok info →
       (∃ c ∈ cs, c.ctype = ihdrType ∧ c.cdata.getD 8 0 = 16) → info.hasHdr = true) ∧
    (∀ (cs : List ChunkRecord) (info : HdrInfo), analyzePngChunks cs = .ok info →
       (∀ c ∈ cs, c.ctype = ihdrType → c.cdata.getD 8 0 ≠ 16) →
       (∀ c ∈ cs, c.ctype ≠ cicpType ∧ c.ctype ≠ mdcvType ∧ c.ctype ≠ clliType) →
       info.hasHdr = false) := by
  constructor
  · intro cs info hres hex
    unfold analyzePngChunks at hres
    split at hres
    · cases hres
    · exact foldChunks_sets cs {} info hres hex
  · intro cs info hres hihdr hno
    unfold analyzePngChunks at hres
    split at hres
    · cases hres
    · exact foldChunks_preserve cs {} info hres hihdr hno

/-- Witness for C10: a one-chunk stream whose IHDR declares bit depth 16
(width 1, height 1, colour type 2) is flagged as HDR. -/
theorem high_bit_depth_flags_hdr_witness :
    ({ hasHdr := true, hdrType := none, highBitDepth := true, cicp := none } :
        HdrInfo).hasHdr = true :=
  high_bit_depth_flags_hdr.1
    [⟨ihdrType, 13, [0, 0, 0, 1, 0, 0, 0, 1, 16, 2, 0, 0, 0], 0⟩]
    { hasHdr := true, hdrType := none, highBitDepth := true, cicp := none }
    (by rfl)
    ⟨⟨ihdrType, 13, [0, 0, 0, 1, 0, 0, 0, 1, 16, 2, 0, 0, 0], 0⟩,
      List.mem_singleton.mpr rfl, rfl, rfl⟩

/-! Reader contract lemmas and claim theorem C7. -/

theorem readLoop_short (rem : List Nat) (h : rem.length < 4) : readLoop rem = .ok [] := by
  rw [readLoop]
  rw [dif_pos h]

theorem readLoop_eq (rem : List Nat) :
    readLoop rem =
      if rem.length < 4 then Except.ok []
      else if ((rem.drop 4).take 4).any (fun b => 128 ≤ b) then
        Except.error "UnicodeDecodeError"
      else if ((((rem.drop 4).drop 4).drop (beToNat (rem.take 4))).take 4).length < 4 then
        Except.error "struct.error"
      else if (rem.drop 4).take 4 = iendType then
        Except.ok [⟨(rem.drop 4).take 4, beToNat (rem.take 4),
                    ((rem.drop 4).drop 4).take (beToNat (rem.take 4)),
                    beToNat ((((rem.drop 4).drop 4).drop (beToNat (rem.take 4))).take 4)⟩]
      else
        match readLoop ((((rem.drop 4).drop 4).drop (beToNat (rem.take 4))).drop 4) with
        | .ok cs =>
          Except.ok (⟨(rem.drop 4).take 4, beToNat (rem.take 4),
                      ((rem.drop 4).drop 4).take (beToNat (rem.take 4)),
                      beToNat ((((rem.drop 4).drop 4).drop (beToNat (rem.take 4))).take 4)⟩ :: cs)
        | .error e => Except.error e := by
  rw [readLoop]
  rfl

theorem readLoop_sound_aux (n : Nat) : ∀ rem : List Nat, rem.length ≤ n →
    ∀ cs, readLoop rem = .ok cs →
      (∀ c ∈ cs, c.cdata.length = c.clen) ∧ (∀ c ∈ cs.dropLast, c.ctype ≠ iendType) := by
  induction n with
  | zero =>
    intro rem hlen cs hres
    rw [readLoop_short rem (by omega)] at hres
    cases hres
    exact ⟨by simp, by simp⟩
  | succ n ih =>
    intro rem hlen cs hres
    by_cases h4 : rem.length < 4
    · rw [readLoop_short rem h4] at hres
      cases hres
      exact ⟨by simp, by simp⟩
    · rw [readLoop_eq, if_neg h4] at hres
      by_cases hascii : (((rem.drop 4).take 4).any (fun b => 128 ≤ b)) = true
      · rw [if_pos hascii] at hres; cases hres
      · rw [if_neg hascii] at hres
        by_cases hcrc : ((((rem.drop 4).drop 4).drop (beToNat (rem.take 4))).take 4).length < 4
        · rw [if_pos hcrc] at hres; cases hres
        · rw [if_neg hcrc] at hres
          have hlen2 : (((rem.drop 4).drop 4).take (beToNat (rem.take 4))).length =
              beToNat (rem.take 4) := by
            simp only [List.length_take, List.length_drop] at hcrc ⊢
            omega
          by_cases hiend : (rem.drop 4).take 4 = iendType
          · rw [if_pos hiend] at hres
            cases hres
            constructor
            · intro c hc
              rw [List.mem_singleton] at hc
              subst hc
              exact hlen2
            · intro c hc
              simp at hc
          · rw [if_neg hiend] at hres
            cases hrec : readLoop ((((rem.drop 4).drop 4).drop (beToNat (rem.take 4))).drop 4) with
            | error e => rw [hrec] at hres; cases hres
            | ok cs0 =>
              rw [hrec] at hres
              injection hres with hres
              subst hres
              have hrecsz : (((((rem.drop 4).drop 4).drop (beToNat (rem.take 4)))).drop 4).length ≤ n := by
                simp only [List.length_drop]
                omega
              obtain ⟨ih1, ih2⟩ := ih _ hrecsz cs0 hrec
              constructor
              · intro c hc
                rcases List.mem_cons.mp hc with hhd | htl
                · subst hhd
                  exact hlen2
                · exact ih1 c htl
              · intro c hc
                cases cs0 with
                | nil => simp at hc
                | cons c0 cs1 =>
                  rw [List.dropLast_cons₂] at hc
                  rcases List.mem_cons.mp hc with hhd | htl
                  · subst hhd
                    exact hiend
                  · exact ih2 c htl

theorem readLoop_sound (rem : List Nat) : ∀ cs, readLoop rem = .ok cs →
    (∀ c ∈ cs, c.cdata.length = c.clen) ∧ (∀ c ∈ cs.dropLast, c.ctype ≠ iendType) :=
  readLoop_sound_aux rem.length rem (le_refl _)

/-- C7 (confirmed): for every byte stream beginning with the valid PNG
signature, the Chunk Stream Reader (a) stops without error whenever
fewer than 4 bytes remain where a length field is expected, (b) every
`ChunkRecord` it emits carries a payload of exactly the declared
`length` bytes, and (c) no emitted record other than the last one has
the `IEND` end-marker type (the reader stops after emitting `IEND`). -/
theorem read_png_chunks_contract (bytes : List Nat) (hsig : bytes.take 8 = pngSignature) :
    (∀ rem : List Nat, rem.length < 4 → readLoop rem = .ok []) ∧
      (∀ cs, readPngChunks bytes = .ok cs →
        (∀ c ∈ cs, c.cdata.length = c.clen) ∧ (∀ c ∈ cs.dropLast, c.ctype ≠ iendType)) := by
  constructor
  · exact readLoop_short
  · intro cs hres
    unfold readPngChunks at hres
    rw [if_pos hsig] at hres
    exact readLoop_sound (bytes.drop 8) cs hres

/-- Witness for C7: the 8-byte signature alone parses to the empty chunk
list, with both contract conclusions holding vacuously. -/
theorem read_png_chunks_contract_witness :
    (∀ rem : List Nat, rem.length < 4 → readLoop rem = .ok []) ∧
      (∀ cs, readPngChunks pngSignature = .ok cs →
        (∀ c ∈ cs, c.cdata.length = c.clen) ∧ (∀ c ∈ cs.dropLast, c.ctype ≠ iendType)) :=
  read_png_chunks_contract pngSignature (by rfl)

/-! Serialization lemmas shared by the round-trip and profile-extraction
claims. -/

/-- Well-formedness of a (type, payload) pair to be serialised: a 4-byte
ASCII type tag and a payload short enough for the 32-bit length field. -/
def wfChunk (c : List Nat × List Nat) : Prop :=
  c.1.length = 4 ∧ (∀ b ∈ c.1, b < 128) ∧ c.2.length < 4294967296

/-- Serialisation of a list of (type, payload) pairs with `make_chunk`. -/
def serializeChunks (crc32 : List Nat → Nat) (cl : List (List Nat × List Nat)) : List Nat :=
  (cl.map (fun c => mkChunk crc32 c.1 c.2)).flatten

/-- The `ChunkRecord` the reader recovers from a chunk serialised by
`make_chunk`. -/
def chunkRecordOf (crc32 : List Nat → Nat) (c : List Nat × List Nat) : ChunkRecord :=
  ⟨c.1, c.2.length, c.2, crc32 (c.1 ++ c.2) % 4294967296⟩

theorem readLoop_mkChunk (crc32 : List Nat → Nat) (t d rest : List Nat)
    (ht4 : t.length = 4) (hta : ∀ b ∈ t, b < 128) (hd : d.length < 4294967296) :
    readLoop (mkChunk crc32 t d ++ rest) =
      if t = iendType then
        .ok [⟨t, d.length, d, crc32 (t ++ d) % 4294967296⟩]
      else
        match readLoop rest with
        | .ok cs => .ok (⟨t, d.length, d, crc32 (t ++ d) % 4294967296⟩ :: cs)
        | .error e => .error e := by
  have hC : crc32 (t ++ d) % 4294967296 < 4294967296 := Nat.mod_lt _ (by norm_num)
  have hassoc : mkChunk crc32 t d ++ rest =
      be32 d.length ++ (t ++ (d ++ (be32 (crc32 (t ++ d) % 4294967296) ++ rest))) := by
    simp only [mkChunk, List.append_assoc]
  rw [readLoop_eq, hassoc]
  rw [if_neg (by simp only [List.length_append, be32_length]; omega)]
  rw [List.take_left' (be32_length d.length), List.drop_left' (be32_length d.length)]
  rw [List.take_left' ht4, List.drop_left' ht4]
  rw [beToNat_be32 _ hd]
  rw [List.take_left' (rfl : d.length = d.length), List.drop_left' (rfl : d.length = d.length)]
  rw [List.take_left' (be32_length _), List.drop_left' (be32_length _)]
  rw [beToNat_be32 _ hC]
  rw [if_neg (by simp only [List.any_eq_true, decide_eq_true_eq, not_exists, not_and, not_le]
                 intro b hb
                 exact hta b hb)]
  rw [if_neg (by rw [be32_length]; omega)]

theorem readLoop_serialized (crc32 : List Nat → Nat) (cl : List (List Nat × List Nat))
    (tail : List Nat) (hwf : ∀ c ∈ cl, wfChunk c) (hnotend : ∀ c ∈ cl, c.1 ≠ iendType) :
    readLoop (serializeChunks crc32 cl ++ tail) =
      match readLoop tail with
      | .ok cs => .ok (cl.map (chunkRecordOf crc32) ++ cs)
      | .error e => .error e := by
  induction cl with
  | nil =>
    simp only [serializeChunks, List.map_nil, List.flatten_nil, List.nil_append]
    cases readLoop tail <;> simp
  | cons c cl ih =>
    obtain ⟨h4, ha, hlen⟩ := hwf c (List.mem_cons_self c cl)
    have hrest : serializeChunks crc32 (c :: cl) ++ tail =
        mkChunk crc32 c.1 c.2 ++ (serializeChunks crc32 cl ++ tail) := by
      simp [serializeChunks, List.append_assoc]
    rw [hrest, readLoop_mkChunk crc32 c.1 c.2 _ h4 ha hlen,
      if_neg (hnotend c (List.mem_cons_self c cl)),
      ih (fun x hx => hwf x (List.mem_cons_of_mem c hx))
         (fun x hx => hnotend x (List.mem_cons_of_mem c hx))]
    cases readLoop tail <;> simp [chunkRecordOf]

theorem readLoop_mkChunk_iend (crc32 : List Nat → Nat) :
    readLoop (mkChunk crc32 iendType []) =
      .ok [⟨iendType, 0, [], crc32 iendType % 4294967296⟩] := by
  have h := readLoop_mkChunk crc32 iendType [] []
    (by rfl) (by intro b hb; simp [iendType] at hb; omega) (by norm_num)
  rw [List.append_nil] at h
  rw [h, if_pos rfl]
  simp

/-! Round-trip building blocks. -/

theorem chunksOf_flatten (n : Nat) (hn : n ≠ 0) (l : List Nat) :
    (chunksOf n l).flatten = l := by
  induction l using chunksOf.induct n with
  | case1 l h =>
    rw [chunksOf, if_pos h]
    rcases h with h | h
    · simp [h]
    · exact absurd h hn
  | case2 l h ih =>
    rw [chunksOf, if_neg h]
    simp [ih, List.take_append_drop]

theorem chunksOf_mem_length (n : Nat) (l : List Nat) :
    ∀ p ∈ chunksOf n l, p.length ≤ n := by
  induction l using chunksOf.induct n with
  | case1 l h =>
    rw [chunksOf, if_pos h]
    intro p hp
    cases hp
  | case2 l h ih =>
    rw [chunksOf, if_neg h]
    intro p hp
    rcases List.mem_cons.mp hp with hhd | htl
    · subst hhd
      simp [List.length_take]
    · exact ih p htl

theorem pixelBytes_length (p : Nat × Nat × Nat) : (pixelBytes p).length = 6 := rfl

theorem rowBytes_length (row : List (Nat × Nat × Nat)) :
    ((row.map pixelBytes).flatten).length = 6 * row.length := by
  induction row with
  | nil => rfl
  | cons p row ih =>
    simp only [List.map_cons, List.flatten_cons, List.length_append, pixelBytes_length, ih,
      List.length_cons]
    ring

theorem parsePixels_append (row : List (Nat × Nat × Nat)) (rest : List Nat)
    (hb : ∀ p ∈ row, p.1 < 65536 ∧ p.2.1 < 65536 ∧ p.2.2 < 65536) :
    parsePixels row.length ((row.map pixelBytes).flatten ++ rest) = row := by
  induction row with
  | nil => rfl
  | cons p row ih =>
    obtain ⟨hr, hg, hbl⟩ := hb p (List.mem_cons_self p row)
    have hassoc : (((p :: row).map pixelBytes).flatten ++ rest) =
        be16 p.1 ++ (be16 p.2.1 ++ (be16 p.2.2 ++ ((row.map pixelBytes).flatten ++ rest))) := by
      simp [pixelBytes, List.append_assoc]
    have hd4 : List.drop 4 (be16 p.1 ++ (be16 p.2.1 ++ (be16 p.2.2 ++
        ((row.map pixelBytes).flatten ++ rest)))) =
        be16 p.2.2 ++ ((row.map pixelBytes).flatten ++ rest) := by
      rw [show be16 p.1 ++ (be16 p.2.1 ++ (be16 p.2.2 ++ ((row.map pixelBytes).flatten ++ rest)))
          = (be16 p.1 ++ be16 p.2.1) ++ (be16 p.2.2 ++ ((row.map pixelBytes).flatten ++ rest))
        by simp [List.append_assoc]]
      exact List.drop_left' (by simp [be16_length])
    have hd6 : List.drop 6 (be16 p.1 ++ (be16 p.2.1 ++ (be16 p.2.2 ++
        ((row.map pixelBytes).flatten ++ rest)))) =
        (row.map pixelBytes).flatten ++ rest := by
      rw [show be16 p.1 ++ (be16 p.2.1 ++ (be16 p.2.2 ++ ((row.map pixelBytes).flatten ++ rest)))
          = (be16 p.1 ++ be16 p.2.1 ++ be16 p.2.2) ++ ((row.map pixelBytes).flatten ++ rest)
        by simp [List.append_assoc]]
      exact List.drop_left' (by simp [be16_length])
    rw [List.length_cons, parsePixels, hassoc]
    rw [List.take_left' (be16_length _), List.drop_left' (be16_length _)]
    rw [List.take_left' (be16_length _)]
    rw [hd4, List.take_left' (be16_length _), hd6]
    rw [beToNat_be16 _ hr, beToNat_be16 _ hg, beToNat_be16 _ hbl]
    rw [ih (fun q hq => hb q (List.mem_cons_of_mem p hq))]

theorem unfilter_rawImageData (w : Nat) (img : List (List (Nat × Nat × Nat))) (rest : List Nat)
    (hw : ∀ row ∈ img, row.length = w)
    (hb : ∀ row ∈ img, ∀ p ∈ row, p.1 < 65536 ∧ p.2.1 < 65536 ∧ p.2.2 < 65536) :
    unfilterScanlines w img.length (rawImageData img ++ rest) = img := by
  induction img with
  | nil => rfl
  | cons row img ih =>
    have hrw : row.length = w := hw row (List.mem_cons_self row img)
    have hassoc : rawImageData (row :: img) ++ rest =
        0 :: ((row.map pixelBytes).flatten ++ (rawImageData img ++ rest)) := by
      simp [rawImageData, scanline, List.append_assoc]
    have h1 : (1 + 6 * w) = 6 * w + 1 := by ring
    rw [List.length_cons, unfilterScanlines, hassoc, h1]
    congr 1
    · rw [show (1 : Nat) = 0 + 1 by rfl, List.drop_succ_cons, List.drop_zero, ← hrw,
        parsePixels_append row _ (hb row (List.mem_cons_self row img))]
    · rw [List.drop_succ_cons]
      rw [List.drop_left' (by rw [rowBytes_length, hrw])]
      exact ih (fun r hr => hw r (List.mem_cons_of_mem row hr))
        (fun r hr => hb r (List.mem_cons_of_mem row hr))

theorem parseIhdr_encode (w h : Nat) (hw : w < 4294967296) (hh : h < 4294967296) :
    parseIhdr (be32 w ++ be32 h ++ [16, 2, 0, 0, 0]) = some ⟨w, h, 16, 2, 0, 0, 0⟩ := by
  unfold parseIhdr
  rw [if_pos (by simp [be32])]
  have h1 : (be32 w ++ be32 h ++ [16, 2, 0, 0, 0]) =
      be32 w ++ (be32 h ++ [16, 2, 0, 0, 0]) := by simp [List.append_assoc]
  rw [h1, List.take_left' (be32_length w), List.drop_left' (be32_length w)]
  rw [List.take_left' (be32_length h)]
  rw [beToNat_be32 _ hw, beToNat_be32 _ hh]
  simp [be32, List.getD]

/-- C1 (confirmed): container round trip.  For every valid header (bit
depth 16, colour type RGB, positive 32-bit dimensions), every matching
16-bit pixel buffer, and any conforming zlib/CRC collaborators
(`inflate ∘ compress = id`), re-reading the byte stream produced by
`save_16bit_png_with_icc` with the Chunk Stream Reader succeeds, the
decoded `IHDR` equals the input header exactly, and concatenating the
`IDAT` payloads, inflating them and stripping the per-scanline filter
byte reproduces the input pixel buffer exactly. -/
theorem container_round_trip
    (crc32 : List Nat → Nat) (compress inflate : List Nat → List Nat)
    (hzlib : ∀ bs, inflate (compress bs) = bs)
    (w h : Nat) (img : List (List (Nat × Nat × Nat)))
    (hh : img.length = h) (hw : ∀ row ∈ img, row.length = w)
    (hw0 : 0 < w) (hh0 : 0 < h) (hwlt : w < 4294967296) (hhlt : h < 4294967296)
    (hpix : ∀ row ∈ img, ∀ p ∈ row, p.1 < 65536 ∧ p.2.1 < 65536 ∧ p.2.2 < 65536)
    (icc : Option (List Nat))
    (hicc : ∀ p, icc = some p → (compress p).length + 8 < 4294967296) :
    decodePng inflate (save16BitPng crc32 compress img icc) =
      some (⟨w, h, 16, 2, 0, 0, 0⟩, img) := by
  have hwidth : (img.headD []).length = w := by
    cases img with
    | nil => simp at hh; omega
    | cons r img => exact hw r (List.mem_cons_self r img)
  set ihdrData : List Nat := be32 w ++ be32 h ++ [16, 2, 0, 0, 0] with hihdrData
  set iccCl : List (List Nat × List Nat) :=
    (icc.map (fun p => (iccpType, [80, 81, 32, 72, 68, 82, 0] ++ [0] ++ compress p))).toList
    with hiccCl
  set idatCl : List (List Nat × List Nat) :=
    (chunksOf 8192 (compress (rawImageData img))).map (fun piece => (idatType, piece))
    with hidatCl
  set cl : List (List Nat × List Nat) := (ihdrType, ihdrData) :: (iccCl ++ idatCl) with hcl
  have hsave : save16BitPng crc32 compress img icc =
      pngSignature ++ (serializeChunks crc32 cl ++ mkChunk crc32 iendType []) := by
    unfold save16BitPng
    rw [hcl, hiccCl, hidatCl, hihdrData, hwidth, hh]
    cases icc with
    | none => simp [serializeChunks, List.append_assoc, Function.comp_def]
    | some p => simp [serializeChunks, List.append_assoc, Function.comp_def]
  have hwf : ∀ c ∈ cl, wfChunk c := by
    intro c hc
    rw [hcl] at hc
    rcases List.mem_cons.mp hc with hhd | htl
    · subst hhd
      refine ⟨rfl, by intro b hb; simp [ihdrType] at hb; omega, ?_⟩
      simp [hihdrData, be32]
    · rcases List.mem_append.mp htl with hi | hd
      · rw [hiccCl] at hi
        cases hopt : icc with
        | none => rw [hopt] at hi; simp at hi
        | some p =>
          rw [hopt] at hi
          simp at hi
          subst hi
          refine ⟨rfl, by intro b hb; simp [iccpType] at hb; omega, ?_⟩
          have := hicc p hopt
          simp only [List.length_append, List.length_cons]
          simp at this ⊢
          omega
      · rw [hidatCl] at hd
        rcases List.mem_map.mp hd with ⟨piece, hpc, hpe⟩
        subst hpe
        refine ⟨rfl, by intro b hb; simp [idatType] at hb; omega, ?_⟩
        have := chunksOf_mem_length 8192 (compress (rawImageData img)) piece hpc
        simp only
        omega
  have hnotend : ∀ c ∈ cl, c.1 ≠ iendType := by
    intro c hc
    rw [hcl] at hc
    rcases List.mem_cons.mp hc with hhd | htl
    · subst hhd; simp [ihdrType, iendType]
    · rcases List.mem_append.mp htl with hi | hd
      · rw [hiccCl] at hi
        cases hopt : icc with
        | none => rw [hopt] at hi; simp at hi
        | some p =>
          rw [hopt] at hi
          simp at hi
          subst hi
          simp [iccpType, iendType]
      · rw [hidatCl] at hd
        rcases List.mem_map.mp hd with ⟨piece, hpc, hpe⟩
        subst hpe
        simp [idatType, iendType]
  set iendRec : ChunkRecord := ⟨iendType, 0, [], crc32 iendType % 4294967296⟩ with hiendRec
  have hread : readPngChunks (save16BitPng crc32 compress img icc) =
      .ok (cl.map (chunkRecordOf crc32) ++ [iendRec]) := by
    rw [hsave]
    unfold readPngChunks
    rw [List.take_left' (show pngSignature.length = 8 from rfl),
      List.drop_left' (show pngSignature.length = 8 from rfl), if_pos rfl]
    rw [readLoop_serialized crc32 cl _ hwf hnotend, readLoop_mkChunk_iend crc32]
  have hfind : (cl.map (chunkRecordOf crc32) ++ [iendRec]).find?
      (fun c => c.ctype = ihdrType) = some (chunkRecordOf crc32 (ihdrType, ihdrData)) := by
    rw [hcl]
    simp only [List.map_cons, List.cons_append]
    exact List.find?_cons_of_pos _ (by simp [chunkRecordOf])
  have hparse : parseIhdr (chunkRecordOf crc32 (ihdrType, ihdrData)).cdata =
      some ⟨w, h, 16, 2, 0, 0, 0⟩ := by
    rw [hihdrData]
    exact parseIhdr_encode w h hwlt hhlt
  have hfilter : ((cl.map (chunkRecordOf crc32) ++ [iendRec]).filter
      (fun c => c.ctype = idatType)).map (·.cdata) =
      chunksOf 8192 (compress (rawImageData img)) := by
    rw [hcl]
    simp only [List.map_cons, List.cons_append, List.map_append, List.filter_append,
      List.filter_cons]
    rw [if_neg (by simp [chunkRecordOf, ihdrType, idatType])]
    have hiccF : (iccCl.map (chunkRecordOf crc32)).filter (fun c => c.ctype = idatType) = [] := by
      rw [List.filter_eq_nil_iff]
      intro a ha
      rcases List.mem_map.mp ha with ⟨x, hx, hxe⟩
      rw [hiccCl] at hx
      cases hopt : icc with
      | none => rw [hopt] at hx; simp at hx
      | some p =>
        rw [hopt] at hx
        simp at hx
        subst hx
        subst hxe
        simp [chunkRecordOf, iccpType, idatType]
    have hidatF : (idatCl.map (chunkRecordOf crc32)).filter
        (fun c => c.ctype = idatType) = idatCl.map (chunkRecordOf crc32) := by
      rw [List.filter_eq_self]
      intro a ha
      rcases List.mem_map.mp ha with ⟨x, hx, hxe⟩
      rw [hidatCl] at hx
      rcases List.mem_map.mp hx with ⟨piece, hpc, hpe⟩
      subst hpe
      subst hxe
      simp [chunkRecordOf]
    have hiendF : List.filter (fun c => decide (c.ctype = idatType)) [iendRec] = [] := by
      rw [List.filter_eq_nil_iff]
      intro a ha
      rw [List.mem_singleton] at ha
      subst ha
      simp [hiendRec, iendType, idatType]
    rw [hiccF, hidatF]
    simp [hidatCl, hiendRec, chunkRecordOf, List.map_map, Function.comp_def, iendType, idatType]
  have hunf : unfilterScanlines w h (rawImageData img) = img := by
    have := unfilter_rawImageData w img [] hw hpix
    rw [List.append_nil, hh] at this
    exact this
  simp only [decodePng, hread, hfind, hparse, hfilter,
    chunksOf_flatten 8192 (by norm_num), hzlib, hunf]

/-- Witness for C1: the identity zlib pair, a constant CRC, a 1×1 image
with one black pixel, and no embedded profile. -/
theorem container_round_trip_witness :
    decodePng id (save16BitPng (fun _ => 0) id [[(0, 0, 0)]] none) =
      some (⟨1, 1, 16, 2, 0, 0, 0⟩, [[(0, 0, 0)]]) :=
  container_round_trip (fun _ => 0) id id (fun _ => rfl) 1 1 [[(0, 0, 0)]]
    (by rfl) (by intro row hrow; rw [List.mem_singleton] at hrow; subst hrow; rfl)
    (by norm_num) (by norm_num) (by norm_num) (by norm_num)
    (by intro row hrow p hp
        rw [List.mem_singleton] at hrow
        subst hrow
        rw [List.mem_singleton] at hp
        subst hp
        refine ⟨by norm_num, by norm_num, by norm_num⟩)
    none (by intro p hp; cases hp)

/-! Profile-extractor lemmas and claim theorem C8. -/

theorem extractLoop_eq (inflate : List Nat → List Nat) (rem : List Nat) :
    extractLoop inflate rem =
      if rem.length < 4 then Except.ok none
      else if ((rem.drop 4).take 4).any (fun b => 128 ≤ b) then
        Except.error "UnicodeDecodeError"
      else if (rem.drop 4).take 4 = iccpType then
        match (((rem.drop 4).drop 4).take (beToNat (rem.take 4))).findIdx?
            (fun b => b = 0) with
        | none => Except.error "ValueError"
        | some i =>
          Except.ok (some ⟨(((rem.drop 4).drop 4).take (beToNat (rem.take 4))).take i,
            inflate ((((rem.drop 4).drop 4).take (beToNat (rem.take 4))).drop (i + 2))⟩)
      else if (rem.drop 4).take 4 = iendType then Except.ok none
      else extractLoop inflate ((((rem.drop 4).drop 4).drop (beToNat (rem.take 4))).drop 4) := by
  rw [extractLoop]
  rfl

theorem extractLoop_mkChunk (inflate : List Nat → List Nat) (crc32 : List Nat → Nat)
    (t d rest : List Nat) (ht4 : t.length = 4) (hta : ∀ b ∈ t, b < 128)
    (hd : d.length < 4294967296) :
    extractLoop inflate (mkChunk crc32 t d ++ rest) =
      if t = iccpType then
        match d.findIdx? (fun b => b = 0) with
        | none => Except.error "ValueError"
        | some i => Except.ok (some ⟨d.take i, inflate (d.drop (i + 2))⟩)
      else if t = iendType then Except.ok none
      else extractLoop inflate rest := by
  have hassoc : mkChunk crc32 t d ++ rest =
      be32 d.length ++ (t ++ (d ++ (be32 (crc32 (t ++ d) % 4294967296) ++ rest))) := by
    simp only [mkChunk, List.append_assoc]
  rw [extractLoop_eq, hassoc]
  rw [if_neg (by simp only [List.length_append, be32_length]; omega)]
  rw [List.take_left' (be32_length d.length), List.drop_left' (be32_length d.length)]
  rw [List.take_left' ht4, List.drop_left' ht4]
  rw [beToNat_be32 _ hd]
  rw [List.take_left' (rfl : d.length = d.length), List.drop_left' (rfl : d.length = d.length)]
  rw [List.drop_left' (be32_length _)]
  rw [if_neg (by simp only [List.any_eq_true, decide_eq_true_eq, not_exists, not_and, not_le]
                 intro b hb
                 exact hta b hb)]

theorem extractLoop_serialized (inflate : List Nat → List Nat) (crc32 : List Nat → Nat)
    (cl : List (List Nat × List Nat)) (tail : List Nat)
    (hwf : ∀ c ∈ cl, wfChunk c) (hskip : ∀ c ∈ cl, c.1 ≠ iccpType ∧ c.1 ≠ iendType) :
    extractLoop inflate (serializeChunks crc32 cl ++ tail) = extractLoop inflate tail := by
  induction cl with
  | nil => simp [serializeChunks]
  | cons c cl ih =>
    obtain ⟨h4, ha, hlen⟩ := hwf c (List.mem_cons_self c cl)
    have hrest : serializeChunks crc32 (c :: cl) ++ tail =
        mkChunk crc32 c.1 c.2 ++ (serializeChunks crc32 cl ++ tail) := by
      simp [serializeChunks, List.append_assoc]
    rw [hrest, extractLoop_mkChunk inflate crc32 c.1 c.2 _ h4 ha hlen,
      if_neg (hskip c (List.mem_cons_self c cl)).1,
      if_neg (hskip c (List.mem_cons_self c cl)).2,
      ih (fun x hx => hwf x (List.mem_cons_of_mem c hx))
         (fun x hx => hskip x (List.mem_cons_of_mem c hx))]

theorem findIdx?_nul (nm : List Nat) (hz : ∀ b ∈ nm, b ≠ 0) (tail : List Nat) :
    (nm ++ 0 :: tail).findIdx? (fun b => b = 0) = some nm.length := by
  rw [List.findIdx?_append]
  have h1 : nm.findIdx? (fun b => decide (b = 0)) = none := by
    rw [List.findIdx?_eq_none_iff]
    intro x hx
    simp [hz x hx]
  rw [h1, List.findIdx?_cons, if_pos (by simp)]
  simp [Option.or]

/-- C8 (confirmed): the Color Profile Extractor is best-effort — (a) a
file that does not start with the PNG signature yields "not found"
(`none`), not an error; (b) a chunk stream that reaches the `IEND` end
marker without an `iCCP` chunk yields "not found"; (c) when an `iCCP`
chunk is present (NUL-terminated name, compression-method byte,
compressed profile), the extractor returns the name bytes and the
deflate-decompressed profile bytes. -/
theorem extract_icc_best_effort (inflate : List Nat → List Nat) (crc32 : List Nat → Nat) :
    (∀ bytes : List Nat, bytes.take 8 ≠ pngSignature →
       extractIccProfile inflate bytes = .ok none) ∧
    (∀ cl : List (List Nat × List Nat), (∀ c ∈ cl, wfChunk c) →
       (∀ c ∈ cl, c.1 ≠ iccpType ∧ c.1 ≠ iendType) → ∀ tail : List Nat,
       extractIccProfile inflate
         (pngSignature ++ (serializeChunks crc32 cl ++ (mkChunk crc32 iendType [] ++ tail))) =
         .ok none) ∧
    (∀ cl : List (List Nat × List Nat), (∀ c ∈ cl, wfChunk c) →
       (∀ c ∈ cl, c.1 ≠ iccpType ∧ c.1 ≠ iendType) →
       ∀ (nm : List Nat) (cm : Nat) (prof tail : List Nat), (∀ b ∈ nm, b ≠ 0) →
       nm.length + 2 + prof.length < 4294967296 →
       extractIccProfile inflate
         (pngSignature ++ (serializeChunks crc32 cl ++
           (mkChunk crc32 iccpType (nm ++ 0 :: cm :: prof) ++ tail))) =
         .ok (some ⟨nm, inflate prof⟩)) := by
  refine ⟨?_, ?_, ?_⟩
  · intro bytes hsig
    unfold extractIccProfile
    rw [if_neg hsig]
  · intro cl hwf hskip tail
    unfold extractIccProfile
    rw [List.take_left' (show pngSignature.length = 8 from rfl),
      List.drop_left' (show pngSignature.length = 8 from rfl), if_pos rfl]
    rw [extractLoop_serialized inflate crc32 cl _ hwf hskip]
    rw [extractLoop_mkChunk inflate crc32 iendType [] tail
      (by rfl) (by intro b hb; simp [iendType] at hb; omega) (by norm_num)]
    rw [if_neg (by simp [iendType, iccpType]), if_pos rfl]
  · intro cl hwf hskip nm cm prof tail hz hlen
    unfold extractIccProfile
    rw [List.take_left' (show pngSignature.length = 8 from rfl),
      List.drop_left' (show pngSignature.length = 8 from rfl), if_pos rfl]
    rw [extractLoop_serialized inflate crc32 cl _ hwf hskip]
    rw [extractLoop_mkChunk inflate crc32 iccpType (nm ++ 0 :: cm :: prof) tail
      (by rfl) (by intro b hb; simp [iccpType] at hb; omega)
      (by simp only [List.length_append, List.length_cons]; omega)]
    rw [if_pos rfl, findIdx?_nul nm hz (cm :: prof)]
    have htake : (nm ++ 0 :: cm :: prof).take nm.length = nm :=
      List.take_left' rfl
    have hdrop : (nm ++ 0 :: cm :: prof).drop (nm.length + 2) = prof := by
      rw [show nm ++ 0 :: cm :: prof = (nm ++ [0, cm]) ++ prof by simp]
      exact List.drop_left' (by simp)
    simp only [htake, hdrop]

/-- Witness for C8: with the identity inflate and a constant CRC, a
single byte `[0]` fails the signature check and extraction returns
"not found". -/
theorem extract_icc_best_effort_witness :
    extractIccProfile id [0] = .ok none :=
  (extract_icc_best_effort id (fun _ => 0)).1 [0] (by decide)

end HdrPng
